import Mathlib

/-!
Shallow embedding of the Mc2PCA multivariate time-series clustering code
(Mc2PCA_class.py): preprocessing (centering), per-sample covariance
estimation, common-subspace extraction (CPCA), cluster assignment by
reconstruction error, the fit loop and inference.  The external numeric
libraries the source calls (np.linalg.svd, the float square root inside
np.linalg.norm, the scipy cosine distance, dtw) are abstracted as an
oracle record of functions; everything else is translated directly from
the source.  The IEEE special values inf and NaN, on which the source
relies (the error-trace sentinel np.inf, all-inf error columns for empty
clusters, NaN propagation through means and comparisons), are modelled by
the type EV.  Real arithmetic is modelled exactly over the rationals.
-/

set_option autoImplicit false

/-- Float-like error values: a finite rational, plus infinity, or NaN. -/
inductive EV where
  | fin (q : ℚ)
  | inf
  | nan
deriving DecidableEq, Repr

namespace EV

/-- IEEE strict comparison: every comparison with NaN is false, and
inf < inf is false (this is what makes the np.inf sentinel in the error
trace, and an epsilon of np.inf, never trigger on the first iteration). -/
def lt : EV → EV → Bool
  | fin a, fin b => decide (a < b)
  | fin _, inf => true
  | _, _ => false

/-- Non-strict comparison, used only on NaN-free values. -/
def le : EV → EV → Bool
  | fin a, fin b => decide (a ≤ b)
  | _, inf => true
  | _, _ => false

/-- IEEE subtraction followed by absolute value, as in np.abs(E.prev - E.cur):
inf - inf is NaN, inf against a finite value is inf, NaN propagates. -/
def abssub : EV → EV → EV
  | nan, _ => nan
  | _, nan => nan
  | inf, inf => nan
  | inf, fin _ => inf
  | fin _, inf => inf
  | fin a, fin b => fin |a - b|

/-- IEEE addition (negative infinity never arises in this code). -/
def add : EV → EV → EV
  | nan, _ => nan
  | _, nan => nan
  | inf, _ => inf
  | _, inf => inf
  | fin a, fin b => fin (a + b)

/-- Division by a natural number (the length of an array). -/
def divNat : EV → Nat → EV
  | fin a, n => fin (a / (n : ℚ))
  | inf, _ => inf
  | nan, _ => nan

def isNan : EV → Bool
  | nan => true
  | _ => false

end EV

/-- Model of np.sum over float values: a left fold starting at 0.0. -/
def evSum (l : List EV) : EV := l.foldl EV.add (EV.fin 0)

/-- Model of np.mean over float values; the mean of an empty array is NaN
(numpy emits only a RuntimeWarning and yields nan). -/
def evMean (l : List EV) : EV :=
  if l.length = 0 then EV.nan else (evSum l).divNat l.length

/-- One scalar time series (one cell of the input table). -/
abbrev Series := List ℚ

/-- One sample: the list of its variable series. -/
abbrev Sample := List Series

/-- The dataset: samples in row order, identified by their index. -/
abbrev Dataset := List Sample

/-- A matrix as a list of rows. -/
abbrev Mat := List (List ℚ)

def listSum (l : List ℚ) : ℚ := l.sum

def listMean (l : List ℚ) : ℚ := listSum l / (l.length : ℚ)

/-- Dot product of two equal-length vectors. -/
def dot (a b : List ℚ) : ℚ := listSum ((a.zip b).map fun p => p.1 * p.2)

def numCols (M : Mat) : Nat := (M.headD []).length

/-- Column j of a matrix. -/
def colOf (M : Mat) (j : Nat) : List ℚ := M.map fun r => r.getD j 0

def transposeM (M : Mat) : Mat := (List.range (numCols M)).map (colOf M)

def matmul (A B : Mat) : Mat :=
  let Bt := transposeM B
  A.map fun r => Bt.map fun c => dot r c

def matAdd (A B : Mat) : Mat :=
  (A.zip B).map fun p => (p.1.zip p.2).map fun q => q.1 + q.2

/-- Model of np.mean(Sigma, axis=0): the element-wise mean matrix. -/
def matMean (Sigma : List Mat) : Mat :=
  match Sigma with
  | [] => []
  | M :: rest => (rest.foldl matAdd M).map fun r => r.map (· / ((rest.length + 1 : Nat) : ℚ))

/-- Python slice l[:p] for an int bound: a negative bound counts from the
end, and out-of-range bounds clamp. -/
def pyTake {α : Type} (l : List α) (p : Int) : List α :=
  if 0 ≤ p then l.take p.toNat else l.take (l.length - (-p).toNat)

/-- Monadic map over Except that stops at the first raised exception,
modelling a Python loop in which an iteration may raise. -/
def mapME {α β : Type} (f : α → Except String β) : List α → Except String (List β)
  | [] => .ok []
  | x :: xs =>
    match f x with
    | .error e => .error e
    | .ok y =>
      match mapME f xs with
      | .error e => .error e
      | .ok ys => .ok (y :: ys)

/-- Centre one series, time_series - np.mean(time_series), from center_data.
For a length-0 series np.mean is NaN (numpy only warns), and the
element-wise subtraction over zero elements yields the empty array again,
so no NaN ever survives into the output. -/
def centerSeries (s : Series) : Series := s.map fun x => x - listMean s

/-- Model of center_data: subtract from every cell the mean of that cell. -/
def center_data (X : Dataset) : Dataset := X.map fun smp => smp.map centerSeries

/-- Model of np.column_stack over the m variable series of one sample: the
L by m observation matrix (rows are time steps), a ValueError when the
series have different lengths or there is no series at all. -/
def columnStack (smp : Sample) : Except String Mat :=
  match smp with
  | [] => .error "ValueError: need at least one array to concatenate"
  | s :: rest =>
    if rest.all fun t => t.length = s.length then
      .ok ((List.range s.length).map fun t => (s :: rest).map fun u => u.getD t 0)
    else .error "ValueError: all the input array dimensions must match exactly"

/-- Model of np.cov(row_data.T, bias=True): re-centre each variable (np.cov
always subtracts the row means) and form the biased covariance, dividing by
the number L of observations.  (For L = 0 numpy produces NaNs with a
warning; the rational convention division-by-zero-is-zero stands in for
that degenerate case, which no claim exercises.  numpy also collapses the
result to a 0-d array when there is a single variable; the claims all use
at least two variables.) -/
def npCov (rowData : Mat) : Mat :=
  let L := rowData.length
  let vars := (transposeM rowData).map centerSeries
  vars.map fun vi => vars.map fun vj => dot vi vj / (L : ℚ)

/-- Model of compute_covariance_matrices: one covariance matrix per sample. -/
def compute_covariance_matrices (centered_X : Dataset) : Except String (List Mat) :=
  mapME (fun smp =>
    match columnStack smp with
    | .error e => .error e
    | .ok rowData => .ok (npCov rowData)) centered_X

/-- The external numeric libraries the source calls, abstracted as opaque
computable functions: np.linalg.svd (only the singular values and vt are
used by the source), the float square root used by np.linalg.norm, the
scipy cosine distance (none models its NaN result on zero vectors), and
the dtw library distance. -/
structure Oracle where
  svd : Mat → List ℚ × Mat
  sqrt : ℚ → ℚ
  cosineDist : List ℚ → List ℚ → Option ℚ
  dtwDist : List ℚ → List ℚ → ℚ

/-- Model of CPCA: mean covariance matrix, its singular value
decomposition, eigenvalues as squared singular values, the first p rows of
vt transposed, and the retained-information ratio
np.sum(val_propre[:p] / np.sum(val_propre)). -/
def CPCA (O : Oracle) (Sigma : List Mat) (p : Int) : Mat × ℚ :=
  let mean_cov := matMean Sigma
  let sv := (O.svd mean_cov).1
  let vt := (O.svd mean_cov).2
  let val_propre := sv.map fun x => x * x
  let prct_info := listSum ((pyTake val_propre p).map (· / listSum val_propre))
  (transposeM (pyTake vt p), prct_info)

/-- Model of compute_common_spaces: one common space per cluster (none for
an empty cluster) and one retained-information fraction per non-empty
cluster only, exactly as the source appends. -/
def compute_common_spaces (O : Oracle) (cov : List Mat) (ci : List (List Nat)) (p : Int) :
    List (Option Mat) × List ℚ :=
  match ci with
  | [] => ([], [])
  | indices :: rest =>
    let r := compute_common_spaces O cov rest p
    if indices.length > 0 then
      let c := CPCA O (indices.map fun i => cov.getD i []) p
      (some c.1 :: r.1, c.2 :: r.2)
    else (none :: r.1, r.2)

def sumAbs (l : List ℚ) : ℚ := listSum (l.map fun x => |x|)

def sumSq (l : List ℚ) : ℚ := listSum (l.map fun x => x * x)

def subV (a b : List ℚ) : List ℚ := (a.zip b).map fun p => p.1 - p.2

/-- Whether the distance-metric string hits one of the four dispatch
branches of assign_clusters; any other string leaves the local variable err
unassigned, so the subsequent np.mean(err) raises for every sample, even a
sample with zero time steps. -/
def validMetric (dm : String) : Bool :=
  dm = "euclidean" || dm = "cosine" || dm = "dtw" || dm = "l1"

/-- Per-time-step error for one row of the observation matrix against the
corresponding row of its reconstruction, under one of the four known
metrics, in source dispatch order (the caller has already checked
validMetric, mirroring the if/elif chain). -/
def stepErrVal (O : Oracle) (dm : String) (tj yj : List ℚ) : EV :=
  if dm = "euclidean" then EV.fin (O.sqrt (sumSq (subV tj yj)))
  else if dm = "cosine" then
    match O.cosineDist tj yj with
    | some q => EV.fin q
    | none => EV.nan
  else if dm = "dtw" then EV.fin (O.dtwDist tj yj)
  else EV.fin (sumAbs (subV tj yj))

/-- One entry of the Error matrix for a sample against a non-null common
space: stack the sample, project onto sst, and take np.mean of the
per-time-step errors (NaN when the sample has zero time steps).  An unknown
metric string raises here, at the np.mean(err) of the unassigned local. -/
def sampleClusterErr (O : Oracle) (dm : String) (sst : Mat) (smp : Sample) :
    Except String EV :=
  match columnStack smp with
  | .error e => .error e
  | .ok t =>
    if validMetric dm then
      .ok (evMean ((t.zip (matmul t sst)).map fun r => stepErrVal O dm r.1 r.2))
    else .error "UnboundLocalError: local variable err referenced before assignment"

/-- Fold of np.argmin keeping the first strict minimum, carrying the
current best index and value. -/
def argminFromV : List EV → Nat → Nat × EV → Nat × EV
  | [], _, best => best
  | x :: rest, i, best =>
    argminFromV rest (i + 1) (if EV.lt x best.2 then (i, x) else best)

def firstNanIdx : List EV → Option Nat
  | [] => none
  | x :: rest => if x.isNan then some 0 else (firstNanIdx rest).map (· + 1)

/-- Model of np.argmin over one row: the index of the first NaN when one is
present (NaN propagates through the minimum reduction of numpy), otherwise
the first index attaining the minimum. -/
def npArgmin (l : List EV) : Nat :=
  match firstNanIdx l with
  | some j => j
  | none =>
    match l with
    | [] => 0
    | x :: rest => (argminFromV rest 1 (0, x)).1

/-- The K columns of the Error matrix, built exactly as the source loop
over k: subscripting S (a TypeError when the stored S is still None), an
all-inf column for a null common space, and per-sample reconstruction
errors against S_k times its transpose otherwise. -/
def errorColumns (X : Dataset) (SOpt : Option (List (Option Mat))) (Kn : Nat)
    (dm : String) (O : Oracle) : Except String (List (List EV)) :=
  mapME (fun k =>
    match SOpt with
    | none => .error "TypeError: NoneType object is not subscriptable"
    | some S =>
      match S.get? k with
      | none => .error "IndexError: list index out of range"
      | some none => .ok (List.replicate X.length EV.inf)
      | some (some s) => mapME (sampleClusterErr O dm (matmul s (transposeM s))) X)
    (List.range Kn)

/-- Row i of the Error matrix, read off the stored columns. -/
def errRow (cols : List (List EV)) (i : Nat) : List EV :=
  cols.map fun c => c.getD i EV.nan

/-- Model of assign_clusters.  np.zeros with a negative K raises; with
K = 0 the column loop is skipped and np.argmin over the length-0 reduction
axis raises unconditionally — numpy checks the reduction-axis length before
looking at the number of rows, so even the (0, 0) Error matrix raises;
otherwise each sample goes to its argmin column and the chosen minimum
error values are returned alongside. -/
def assign_clusters (X : Dataset) (SOpt : Option (List (Option Mat))) (K : Int)
    (dm : String) (O : Oracle) : Except String (List Nat × List EV) :=
  if K < 0 then .error "ValueError: negative dimensions are not allowed"
  else
    match errorColumns X SOpt K.toNat dm O with
    | .error e => .error e
    | .ok cols =>
      if K.toNat = 0 then
        .error "ValueError: attempt to get argmin of an empty sequence"
      else
        .ok ((List.range X.length).map fun i => npArgmin (errRow cols i),
             (List.range X.length).map fun i =>
               (errRow cols i).getD (npArgmin (errRow cols i)) EV.nan)

/-- Model of np.where(I == k)[0]: the increasing list of sample indices
assigned to cluster k. -/
def whereEq (I : List Nat) (k : Nat) : List Nat :=
  (List.range I.length).filter fun i => I.getD i 0 == k

/-- The comprehension over np.where for k in range(K). -/
def groupBy (I : List Nat) (Kn : Nat) : List (List Nat) :=
  (List.range Kn).map (whereEq I)

/-- The K contiguous roughly-equal parts of np.array_split(np.arange n, K):
the first n mod K parts get one extra element. -/
def arraySplitParts (n kn : Nat) : List (List Nat) :=
  let l := n / kn
  let r := n % kn
  (List.range kn).map fun i =>
    let start := i * l + min i r
    let sz := if i < r then l + 1 else l
    (List.range sz).map fun j => start + j

/-- Model of np.array_split(np.arange n, K): raises unless K is positive. -/
def arraySplit (n : Nat) (K : Int) : Except String (List (List Nat)) :=
  if K ≤ 0 then .error "ValueError: number sections must be larger than 0."
  else .ok (arraySplitParts n K.toNat)

/-- The class state after the constructor, plus the fields written by fit
(S, idx, E, info_by_cluster, all None until fit completes). -/
structure Mc2PCA where
  K : Int
  p : Int
  epsilon : EV
  max_iter : Int
  distance_metric : String
  S : Option (List (Option Mat))
  idx : Option (List (List Nat))
  E : Option (List EV)
  info_by_cluster : Option (List ℚ)
deriving DecidableEq, Repr

/-- The constructor of Mc2PCA: it stores the configuration verbatim and
performs no validation of any kind. -/
def Mc2PCA.init (K p : Int) (epsilon : EV) (max_iter : Int) (dm : String) : Mc2PCA :=
  ⟨K, p, epsilon, max_iter, dm, none, none, none, none⟩

/-- The mutable state of the fit loop: current index sets, common spaces,
error trace, and the info_by_cluster local (None while still unassigned,
as it is before the first commit). -/
structure LoopState where
  idx : List (List Nat)
  S : List (Option Mat)
  E : List EV
  info : Option (List ℚ)
deriving DecidableEq, Repr

/-- The last entry of the error trace (the trace is never empty). -/
def lastE (E : List EV) : EV := E.getLast?.getD EV.nan

/-- One run of the for-t loop of fit, with the remaining iteration count as
fuel.  Each iteration assigns clusters, appends the normalised mean error,
breaks when the last two error-trace entries differ by less than epsilon
(keeping the index sets, spaces and info from before the assignment of this
iteration), and otherwise commits the new index sets and recomputes the
common spaces and per-cluster information. -/
def fitLoop (O : Oracle) (Xc : Dataset) (cov : List Mat) (K p : Int) (eps : EV)
    (dm : String) : Nat → LoopState → Except String LoopState
  | 0, st => .ok st
  | fuel + 1, st =>
    match assign_clusters Xc (some st.S) K dm O with
    | .error e => .error e
    | .ok (I, v) =>
      if EV.lt (EV.abssub (lastE st.E) (evMean v)) eps then
        .ok ⟨st.idx, st.S, st.E ++ [evMean v], st.info⟩
      else
        fitLoop O Xc cov K p eps dm fuel
          ⟨groupBy I K.toNat,
           (compute_common_spaces O cov (groupBy I K.toNat) p).1,
           st.E ++ [evMean v],
           some (compute_common_spaces O cov (groupBy I K.toNat) p).2⟩

/-- The triple returned by fit: idx, E, info_by_cluster. -/
structure FitOut where
  idx : List (List Nat)
  E : List EV
  info : List ℚ
deriving DecidableEq, Repr

/-- Model of Mc2PCA.fit: centre, estimate covariances, split indices into K
contiguous parts, extract the initial common spaces, seed the error trace
with the np.inf sentinel, loop, then store the results on the instance.
Reading info_by_cluster raises when the loop body never reached the commit
step (it is a local assigned only there). -/
def Mc2PCA.fit (m : Mc2PCA) (O : Oracle) (X : Dataset) :
    Except String (Mc2PCA × FitOut) :=
  match compute_covariance_matrices (center_data X) with
  | .error e => .error e
  | .ok cov =>
    match arraySplit X.length m.K with
    | .error e => .error e
    | .ok idx0 =>
      match fitLoop O (center_data X) cov m.K m.p m.epsilon m.distance_metric
          m.max_iter.toNat
          ⟨idx0, (compute_common_spaces O cov idx0 m.p).1, [EV.inf], none⟩ with
      | .error e => .error e
      | .ok st =>
        match st.info with
        | none =>
          .error "UnboundLocalError: local variable info_by_cluster referenced before assignment"
        | some info =>
          .ok ({ m with
                  S := some st.S
                  idx := some st.idx
                  E := some st.E
                  info_by_cluster := some info }, ⟨st.idx, st.E, info⟩)

/-- Model of Mc2PCA.inference: centre the test set and assign once with the
stored common spaces, with no re-estimation. -/
def Mc2PCA.inference (m : Mc2PCA) (O : Oracle) (X_test : Dataset) :
    Except String (List (List Nat)) :=
  match assign_clusters (center_data X_test) m.S m.K m.distance_metric O with
  | .error e => .error e
  | .ok (I, _) => .ok (groupBy I m.K.toNat)

/-- A concrete oracle for the closed evaluations below.  Its svd is the
constant decomposition with singular values (2, 0) and vt the identity;
the concrete runs use the l1 metric, so the square root, cosine and dtw
components are never consulted. -/
def O0 : Oracle :=
  ⟨fun _ => ([2, 0], [[1, 0], [0, 1]]), fun q => q, fun _ _ => some 0, fun _ _ => 0⟩

/-- A concrete dataset: two identical samples, two variables, each series
being the two observations 0 and 2 (so each centred series is -1, 1). -/
def X0 : Dataset := [[[0, 2], [0, 2]], [[0, 2], [0, 2]]]

/-- Decidable equality for the Except results, so that closed runs of the
embedded functions can be checked by decide. -/
instance {ε α : Type} [DecidableEq ε] [DecidableEq α] : DecidableEq (Except ε α) :=
  fun a b =>
    match a, b with
    | .ok x, .ok y =>
      if h : x = y then isTrue (by rw [h])
      else isFalse (by intro hc; cases hc; exact h rfl)
    | .error x, .error y =>
      if h : x = y then isTrue (by rw [h])
      else isFalse (by intro hc; cases hc; exact h rfl)
    | .ok _, .error _ => isFalse (by intro hc; cases hc)
    | .error _, .ok _ => isFalse (by intro hc; cases hc)

attribute [local semireducible] Rat.add Rat.mul Rat.sub Rat.inv

/-! Auxiliary list lemmas. -/

theorem getD_map_lt {α β : Type} (f : α → β) (l : List α) (i : Nat) (d : β) (d' : α)
    (h : i < l.length) : (l.map f).getD i d = f (l.getD i d') := by
  rw [List.getD_eq_getElem _ _ (by simpa using h), List.getD_eq_getElem _ _ h,
    List.getElem_map]

theorem getD_range_lt (n i : Nat) (h : i < n) (d : Nat) :
    (List.range n).getD i d = i := by
  rw [List.getD_eq_getElem _ _ (by simpa using h)]
  exact List.getElem_range _ _

theorem range_map_getD {α : Type} (l : List α) (d : α) :
    (List.range l.length).map (fun i => l.getD i d) = l := by
  apply List.ext_getElem
  · simp
  · intro n h1 h2
    rw [List.getElem_map, List.getElem_range, List.getD_eq_getElem _ _ h2]

theorem getD_mem_of_lt {α : Type} (l : List α) (i : Nat) (d : α) (h : i < l.length) :
    l.getD i d ∈ l := by
  rw [List.getD_eq_getElem _ _ h]
  exact List.getElem_mem h

/-! Lemmas about the exception-propagating map. -/

theorem mapME_ok_length {α β : Type} (f : α → Except String β) (l : List α)
    (r : List β) (h : mapME f l = .ok r) : r.length = l.length := by
  induction l generalizing r with
  | nil =>
    rw [mapME] at h
    cases h
    rfl
  | cons x xs ih =>
    rw [mapME] at h
    cases hfx : f x with
    | error e => rw [hfx] at h; cases h
    | ok y =>
      rw [hfx] at h
      cases hxs : mapME f xs with
      | error e => rw [hxs] at h; cases h
      | ok ys =>
        rw [hxs] at h
        cases h
        simp [ih ys hxs]

theorem mapME_ok_getD {α β : Type} (f : α → Except String β) (l : List α)
    (r : List β) (h : mapME f l = .ok r) (i : Nat) (hi : i < l.length)
    (d : α) (d' : β) : f (l.getD i d) = .ok (r.getD i d') := by
  induction l generalizing r i with
  | nil => simp at hi
  | cons x xs ih =>
    rw [mapME] at h
    cases hfx : f x with
    | error e => rw [hfx] at h; cases h
    | ok y =>
      rw [hfx] at h
      cases hxs : mapME f xs with
      | error e => rw [hxs] at h; cases h
      | ok ys =>
        rw [hxs] at h
        cases h
        cases i with
        | zero => simpa using hfx
        | succ j => exact ih ys hxs j (by simpa using hi)

theorem mapME_ok_mem {α β : Type} (f : α → Except String β) (l : List α)
    (r : List β) (h : mapME f l = .ok r) (y : β) (hy : y ∈ r) :
    ∃ x ∈ l, f x = .ok y := by
  induction l generalizing r with
  | nil =>
    rw [mapME] at h
    cases h
    simp at hy
  | cons x xs ih =>
    rw [mapME] at h
    cases hfx : f x with
    | error e => rw [hfx] at h; cases h
    | ok y' =>
      rw [hfx] at h
      cases hxs : mapME f xs with
      | error e => rw [hxs] at h; cases h
      | ok ys =>
        rw [hxs] at h
        cases h
        rcases List.mem_cons.mp hy with rfl | hy2
        · exact ⟨x, by simp, hfx⟩
        · obtain ⟨x', hx', hfx'⟩ := ih ys hxs hy2
          exact ⟨x', by simp [hx'], hfx'⟩

theorem mapME_cons_error {α β : Type} (f : α → Except String β) (x : α)
    (xs : List α) (e : String) (hfx : f x = .error e) :
    mapME f (x :: xs) = .error e := by
  rw [mapME, hfx]

/-! Lemmas about the float-value model. -/

theorem EV.add_ne_inf (a b : EV) (ha : a ≠ EV.inf) (hb : b ≠ EV.inf) :
    EV.add a b ≠ EV.inf := by
  cases a <;> cases b <;> simp_all [EV.add]

theorem evFoldl_ne_inf (l : List EV) (acc : EV) (hacc : acc ≠ EV.inf)
    (h : ∀ x ∈ l, x ≠ EV.inf) : l.foldl EV.add acc ≠ EV.inf := by
  induction l generalizing acc with
  | nil => simpa using hacc
  | cons x xs ih =>
    exact ih (EV.add acc x) (EV.add_ne_inf _ _ hacc (h x (by simp)))
      (fun y hy => h y (by simp [hy]))

theorem evMean_ne_inf (l : List EV) (h : ∀ x ∈ l, x ≠ EV.inf) :
    evMean l ≠ EV.inf := by
  rw [evMean]
  split
  · simp
  · have hs : evSum l ≠ EV.inf := evFoldl_ne_inf l (EV.fin 0) (by simp) h
    cases he : evSum l <;> simp_all [EV.divNat]

theorem EV.le_refl_nonnan (a : EV) (ha : a.isNan = false) : EV.le a a = true := by
  cases a <;> simp_all [EV.le, EV.isNan]

theorem EV.lt_then_le (a b : EV) (h : EV.lt a b = true) : EV.le a b = true := by
  cases a <;> cases b <;> simp_all [EV.lt, EV.le]
  exact le_of_lt h

theorem EV.not_lt_then_le (a b : EV) (ha : a.isNan = false) (hb : b.isNan = false)
    (h : EV.lt a b = false) : EV.le b a = true := by
  cases a <;> cases b <;> simp_all [EV.lt, EV.le, EV.isNan]

theorem EV.le_trans_ev (a b c : EV) (h1 : EV.le a b = true) (h2 : EV.le b c = true) :
    EV.le a c = true := by
  cases a <;> cases b <;> cases c <;> simp_all [EV.le]
  exact le_trans h1 h2

theorem EV.le_inf_left (a : EV) (h : EV.le EV.inf a = true) : a = EV.inf := by
  cases a <;> simp_all [EV.le]

theorem EV.lt_abssub_inf (e eps : EV) : EV.lt (EV.abssub EV.inf e) eps = false := by
  cases e <;> cases eps <;> rfl

/-! Lemmas about the argmin model. -/

theorem argminFromV_fst_lt (l : List EV) (i : Nat) (best : Nat × EV)
    (h : best.1 < i) : (argminFromV l i best).1 < i + l.length := by
  induction l generalizing i best with
  | nil => simpa using h
  | cons x rest ih =>
    rw [argminFromV]
    have hb : (if EV.lt x best.2 then (i, x) else best).1 < i + 1 := by
      split
      · exact Nat.lt_succ_self i
      · omega
    have := ih (i + 1) _ hb
    simpa [Nat.add_comm, Nat.add_left_comm] using this

theorem argminFromV_cases (l : List EV) (i : Nat) (best : Nat × EV) :
    argminFromV l i best = best ∨
      ∃ j, j < l.length ∧ argminFromV l i best = (i + j, l.getD j EV.nan) := by
  induction l generalizing i best with
  | nil => left; rfl
  | cons x rest ih =>
    rw [argminFromV]
    rcases ih (i + 1) (if EV.lt x best.2 then (i, x) else best) with h | ⟨j, hj, h⟩
    · rw [h]
      by_cases hx : EV.lt x best.2 = true
      · right
        refine ⟨0, by simp, ?_⟩
        simp [hx]
      · left
        simp [hx]
    · right
      refine ⟨j + 1, by simpa using Nat.succ_lt_succ hj, ?_⟩
      rw [h]
      have : i + 1 + j = i + (j + 1) := by omega
      simp [this]

theorem argminFromV_min (l : List EV) (i : Nat) (best : Nat × EV)
    (hl : ∀ x ∈ l, x.isNan = false) (hb : best.2.isNan = false) :
    EV.le (argminFromV l i best).2 best.2 = true ∧
    (∀ x ∈ l, EV.le (argminFromV l i best).2 x = true) ∧
    (argminFromV l i best).2.isNan = false := by
  induction l generalizing i best with
  | nil =>
    refine ⟨?_, by simp, hb⟩
    rw [argminFromV]
    exact EV.le_refl_nonnan _ hb
  | cons x rest ih =>
    have hx : x.isNan = false := hl x (by simp)
    have hb' : (if EV.lt x best.2 then (i, x) else best).2.isNan = false := by
      split <;> simpa
    obtain ⟨h1, h2, h3⟩ := ih (i + 1) (if EV.lt x best.2 then (i, x) else best)
      (fun y hy => hl y (by simp [hy])) hb'
    have hle_best : EV.le (if EV.lt x best.2 then (i, x) else best).2 best.2 = true := by
      by_cases hlt : EV.lt x best.2 = true
      · simpa [hlt] using EV.lt_then_le _ _ hlt
      · simp only [hlt]
        simpa using EV.le_refl_nonnan _ hb
    have hle_x : EV.le (if EV.lt x best.2 then (i, x) else best).2 x = true := by
      by_cases hlt : EV.lt x best.2 = true
      · simpa [hlt] using EV.le_refl_nonnan _ hx
      · simp only [hlt]
        simpa using EV.not_lt_then_le x best.2 hx hb
          (by simpa using hlt)
    rw [argminFromV]
    refine ⟨EV.le_trans_ev _ _ _ h1 hle_best, ?_, h3⟩
    intro y hy
    rcases List.mem_cons.mp hy with rfl | hy'
    · exact EV.le_trans_ev _ _ _ h1 hle_x
    · exact h2 y hy'

theorem firstNanIdx_some (l : List EV) (j : Nat) (h : firstNanIdx l = some j) :
    j < l.length ∧ (l.getD j EV.nan).isNan = true := by
  induction l generalizing j with
  | nil => simp [firstNanIdx] at h
  | cons x rest ih =>
    rw [firstNanIdx] at h
    by_cases hx : x.isNan = true
    · rw [if_pos hx] at h
      cases h
      exact ⟨by simp, by simpa using hx⟩
    · rw [if_neg hx] at h
      cases hr : firstNanIdx rest with
      | none => rw [hr] at h; cases h
      | some j' =>
        rw [hr] at h
        cases h
        obtain ⟨hj', hn⟩ := ih j' hr
        exact ⟨by simpa using Nat.succ_lt_succ hj', by simpa using hn⟩

theorem firstNanIdx_none (l : List EV) (h : firstNanIdx l = none) :
    ∀ x ∈ l, x.isNan = false := by
  induction l with
  | nil => simp
  | cons x rest ih =>
    rw [firstNanIdx] at h
    by_cases hx : x.isNan = true
    · rw [if_pos hx] at h; cases h
    · rw [if_neg hx] at h
      intro y hy
      rcases List.mem_cons.mp hy with rfl | hy'
      · simpa using hx
      · cases hr : firstNanIdx rest with
        | none => exact ih hr y hy'
        | some j' => rw [hr] at h; cases h

theorem npArgmin_lt_length (l : List EV) (hl : l ≠ []) : npArgmin l < l.length := by
  cases hf : firstNanIdx l with
  | some j =>
    rw [npArgmin.eq_def, hf]
    exact (firstNanIdx_some l j hf).1
  | none =>
    rw [npArgmin.eq_def, hf]
    cases l with
    | nil => exact absurd rfl hl
    | cons x rest =>
      have := argminFromV_fst_lt rest 1 (0, x) (by simp)
      simpa [Nat.add_comm] using this

theorem npArgmin_ne_of_inf (l : List EV) (k k' : Nat) (hk : k < l.length)
    (hinf : l.getD k EV.nan = EV.inf) (hk' : k' < l.length)
    (hne : l.getD k' EV.nan ≠ EV.inf) : npArgmin l ≠ k := by
  cases hf : firstNanIdx l with
  | some j =>
    rw [npArgmin.eq_def, hf]
    obtain ⟨hjl, hjn⟩ := firstNanIdx_some l j hf
    intro he
    have he' : j = k := he
    rw [he', hinf] at hjn
    simp [EV.isNan] at hjn
  | none =>
    have hnonan := firstNanIdx_none l hf
    rw [npArgmin.eq_def, hf]
    cases l with
    | nil => simp at hk
    | cons x rest =>
      intro he
      have he' : (argminFromV rest 1 (0, x)).1 = k := he
      obtain ⟨hle1, hle2, _⟩ := argminFromV_min rest 1 (0, x)
        (fun y hy => hnonan y (by simp [hy])) (hnonan x (by simp))
      have hval : (argminFromV rest 1 (0, x)).2 =
          (x :: rest).getD (argminFromV rest 1 (0, x)).1 EV.nan := by
        rcases argminFromV_cases rest 1 (0, x) with hc | ⟨j, hj, hc⟩
        · rw [hc]
          rfl
        · rw [hc]
          have h1j : 1 + j = j + 1 := by omega
          simp [h1j]
      have hsel : (argminFromV rest 1 (0, x)).2 = EV.inf := by
        rw [hval, he', hinf]
      have hlek' : EV.le (argminFromV rest 1 (0, x)).2
          ((x :: rest).getD k' EV.nan) = true := by
        cases k' with
        | zero => simpa using hle1
        | succ j' =>
          have : (x :: rest).getD (j' + 1) EV.nan = rest.getD j' EV.nan := by simp
          rw [this]
          exact hle2 _ (getD_mem_of_lt rest j' EV.nan (by simpa using hk'))
      rw [hsel] at hlek'
      exact hne (EV.le_inf_left _ hlek')

/-! Lemmas about the error columns and the assignment step. -/

theorem errorColumns_ok_length (X : Dataset) (SOpt : Option (List (Option Mat)))
    (Kn : Nat) (dm : String) (O : Oracle) (cols : List (List EV))
    (h : errorColumns X SOpt Kn dm O = .ok cols) : cols.length = Kn := by
  have := mapME_ok_length _ _ _ h
  simpa using this

theorem errorColumns_ok_body (X : Dataset) (S : List (Option Mat)) (Kn : Nat)
    (dm : String) (O : Oracle) (cols : List (List EV)) (k : Nat)
    (h : errorColumns X (some S) Kn dm O = .ok cols) (hk : k < Kn) :
    (match S.get? k with
     | none => Except.error "IndexError: list index out of range"
     | some none => Except.ok (List.replicate X.length EV.inf)
     | some (some s) => mapME (sampleClusterErr O dm (matmul s (transposeM s))) X)
    = Except.ok (cols.getD k []) := by
  have h2 := mapME_ok_getD _ _ _ h k (by simpa using hk) 0 []
  rw [getD_range_lt Kn k hk 0] at h2
  exact h2

theorem errorColumns_null_col (X : Dataset) (S : List (Option Mat)) (Kn : Nat)
    (dm : String) (O : Oracle) (cols : List (List EV)) (k : Nat)
    (h : errorColumns X (some S) Kn dm O = .ok cols) (hk : k < Kn)
    (hS : S.get? k = some none) :
    cols.getD k [] = List.replicate X.length EV.inf := by
  have hb := errorColumns_ok_body X S Kn dm O cols k h hk
  simp only [hS, Except.ok.injEq] at hb
  exact hb.symm

theorem errorColumns_some_col (X : Dataset) (S : List (Option Mat)) (Kn : Nat)
    (dm : String) (O : Oracle) (cols : List (List EV)) (k : Nat) (s : Mat)
    (h : errorColumns X (some S) Kn dm O = .ok cols) (hk : k < Kn)
    (hS : S.get? k = some (some s)) :
    mapME (sampleClusterErr O dm (matmul s (transposeM s))) X = .ok (cols.getD k []) := by
  have hb := errorColumns_ok_body X S Kn dm O cols k h hk
  simp only [hS] at hb
  exact hb

theorem stepErrVal_ne_inf (O : Oracle) (dm : String) (tj yj : List ℚ) :
    stepErrVal O dm tj yj ≠ EV.inf := by
  rw [stepErrVal]
  split_ifs
  · simp
  · cases O.cosineDist tj yj <;> simp
  · simp
  · simp

theorem sampleClusterErr_ok_ne_inf (O : Oracle) (dm : String) (sst : Mat)
    (smp : Sample) (e : EV) (h : sampleClusterErr O dm sst smp = .ok e) :
    e ≠ EV.inf := by
  rw [sampleClusterErr] at h
  split at h
  · cases h
  · split at h
    · cases h
      apply evMean_ne_inf
      intro x hx
      obtain ⟨r, _, hr⟩ := List.mem_map.mp hx
      rw [← hr]
      exact stepErrVal_ne_inf _ _ _ _
    · cases h

theorem assign_clusters_ok_parts (X : Dataset) (S : List (Option Mat)) (K : Int)
    (dm : String) (O : Oracle) (I : List Nat) (v : List EV)
    (h : assign_clusters X (some S) K dm O = .ok (I, v)) (hK : 1 ≤ K) :
    ∃ cols, errorColumns X (some S) K.toNat dm O = .ok cols ∧
      I = (List.range X.length).map (fun i => npArgmin (errRow cols i)) := by
  rw [assign_clusters] at h
  rw [if_neg (show ¬ K < 0 by omega)] at h
  split at h
  · cases h
  · next cols heq =>
    rw [if_neg (show ¬ K.toNat = 0 by omega)] at h
    have h2 := h
    simp only [Except.ok.injEq, Prod.mk.injEq] at h2
    exact ⟨cols, heq, h2.1.symm⟩

theorem errRow_length (cols : List (List EV)) (i : Nat) :
    (errRow cols i).length = cols.length := by
  simp [errRow]

theorem errRow_getD (cols : List (List EV)) (i k : Nat) (hk : k < cols.length) :
    (errRow cols i).getD k EV.nan = (cols.getD k []).getD i EV.nan := by
  rw [errRow, getD_map_lt _ _ _ _ [] hk]

theorem mem_whereEq (I : List Nat) (k i : Nat) :
    i ∈ whereEq I k ↔ i < I.length ∧ I.getD i 0 = k := by
  rw [whereEq]
  simp [List.mem_filter, List.mem_range]

theorem groupBy_getD (I : List Nat) (Kn k : Nat) (hk : k < Kn) :
    (groupBy I Kn).getD k [] = whereEq I k := by
  rw [groupBy, getD_map_lt _ _ _ _ 0 (by simpa using hk), getD_range_lt Kn k hk 0]

/-- C4.  After any assignment step (the fit loop at line 81 and inference at
line 116 both post-process the assignment vector with np.where over
range(K)), the K cluster index sets are pairwise disjoint and their union
is exactly the whole sample index range 0..n-1: every sample index lies in
exactly one cluster. -/
theorem assign_clusters_partition (X : Dataset) (S : List (Option Mat)) (K : Int)
    (dm : String) (O : Oracle) (I : List Nat) (v : List EV)
    (hok : assign_clusters X (some S) K dm O = .ok (I, v)) (hK : 1 ≤ K) :
    (∀ k1, k1 < K.toNat → ∀ k2, k2 < K.toNat → ∀ i,
      i ∈ (groupBy I K.toNat).getD k1 [] → i ∈ (groupBy I K.toNat).getD k2 [] →
      k1 = k2) ∧
    (∀ i, i < X.length ↔ ∃ k, k < K.toNat ∧ i ∈ (groupBy I K.toNat).getD k []) := by
  obtain ⟨cols, hcols, hI⟩ := assign_clusters_ok_parts X S K dm O I v hok hK
  have hIlen : I.length = X.length := by rw [hI]; simp
  have hKn : cols.length = K.toNat := errorColumns_ok_length _ _ _ _ _ _ hcols
  have hbound : ∀ i, i < X.length → I.getD i 0 < K.toNat := by
    intro i hi
    rw [hI, getD_map_lt _ _ _ _ 0 (by simpa using hi), getD_range_lt _ _ hi 0]
    have hne : errRow cols i ≠ [] := by
      have : (errRow cols i).length = K.toNat := by rw [errRow_length, hKn]
      intro hnil
      rw [hnil] at this
      simp at this
      omega
    have := npArgmin_lt_length (errRow cols i) hne
    rw [errRow_length, hKn] at this
    exact this
  constructor
  · intro k1 hk1 k2 hk2 i hm1 hm2
    rw [groupBy_getD I K.toNat k1 hk1, mem_whereEq] at hm1
    rw [groupBy_getD I K.toNat k2 hk2, mem_whereEq] at hm2
    rw [← hm1.2, ← hm2.2]
  · intro i
    constructor
    · intro hi
      refine ⟨I.getD i 0, hbound i hi, ?_⟩
      rw [groupBy_getD I K.toNat _ (hbound i hi), mem_whereEq]
      exact ⟨by omega, rfl⟩
    · rintro ⟨k, hk, hm⟩
      rw [groupBy_getD I K.toNat k hk, mem_whereEq] at hm
      omega

/-- C5.  For a cluster k whose common space is null (an empty cluster), the
Error column k is plus infinity at every sample; and as long as some
cluster has a non-null common space, the argmin never assigns any sample to
cluster k. -/
theorem assign_null_space_never_selected (X : Dataset) (S : List (Option Mat))
    (K : Int) (dm : String) (O : Oracle) (I : List Nat) (v : List EV)
    (cols : List (List EV)) (k : Nat)
    (hok : assign_clusters X (some S) K dm O = .ok (I, v)) (hK : 1 ≤ K)
    (hcols : errorColumns X (some S) K.toNat dm O = .ok cols)
    (hk : k < K.toNat) (hnull : S.get? k = some none) :
    (∀ i, i < X.length → (cols.getD k []).getD i EV.nan = EV.inf) ∧
    ((∃ k' s, k' < K.toNat ∧ S.get? k' = some (some s)) →
      ∀ i, i < X.length → I.getD i 0 ≠ k) := by
  have hKn : cols.length = K.toNat := errorColumns_ok_length _ _ _ _ _ _ hcols
  have hcolk := errorColumns_null_col X S K.toNat dm O cols k hcols hk hnull
  have hinfcol : ∀ i, i < X.length → (cols.getD k []).getD i EV.nan = EV.inf := by
    intro i hi
    rw [hcolk, List.getD_eq_getElem _ _ (by simpa using hi), List.getElem_replicate]
  refine ⟨hinfcol, ?_⟩
  rintro ⟨k', s, hk', hs⟩ i hi
  obtain ⟨cols2, hcols2, hI⟩ := assign_clusters_ok_parts X S K dm O I v hok hK
  have hc2 : cols2 = cols := by
    rw [hcols] at hcols2
    cases hcols2
    rfl
  rw [hc2] at hI
  rw [hI, getD_map_lt _ _ _ _ 0 (by simpa using hi), getD_range_lt _ _ hi 0]
  have hcolk' := errorColumns_some_col X S K.toNat dm O cols k' s hcols hk' hs
  have hlen' : (cols.getD k' []).length = X.length := by
    have := mapME_ok_length _ _ _ hcolk'
    omega
  have hval' : sampleClusterErr O dm (matmul s (transposeM s)) (X.getD i []) =
      .ok ((cols.getD k' []).getD i EV.nan) :=
    mapME_ok_getD _ _ _ hcolk' i hi [] EV.nan
  have hne' : (cols.getD k' []).getD i EV.nan ≠ EV.inf :=
    sampleClusterErr_ok_ne_inf _ _ _ _ _ hval'
  apply npArgmin_ne_of_inf (errRow cols i) k k'
  · rw [errRow_length, hKn]; exact hk
  · rw [errRow_getD cols i k (by omega)]
    exact hinfcol i hi
  · rw [errRow_length, hKn]; exact hk'
  · rw [errRow_getD cols i k' (by omega)]
    exact hne'

/-! Lemmas about the fit loop. -/

/-- C1.  When the convergence test fires at an iteration (the absolute
difference of the last two error-trace entries, the stored last entry and
the mean error of the assignment just computed, is below epsilon), the fit
loop stops at once and returns the index sets, common spaces and
per-cluster information from before the assignment step of this iteration:
only the error trace records the triggering mean error, and the new
assignment I is discarded, not committed. -/
theorem fitLoop_convergence_discards_new_assignment (O : Oracle) (Xc : Dataset)
    (cov : List Mat) (K p : Int) (eps : EV) (dm : String) (fuel : Nat)
    (st : LoopState) (I : List Nat) (v : List EV)
    (hok : assign_clusters Xc (some st.S) K dm O = .ok (I, v))
    (hconv : EV.lt (EV.abssub (lastE st.E) (evMean v)) eps = true) :
    fitLoop O Xc cov K p eps dm (fuel + 1) st =
      .ok ⟨st.idx, st.S, st.E ++ [evMean v], st.info⟩ := by
  rw [fitLoop, hok]
  simp [hconv]

theorem fitLoop_E_extends (O : Oracle) (Xc : Dataset) (cov : List Mat) (K p : Int)
    (eps : EV) (dm : String) (fuel : Nat) (st st' : LoopState)
    (h : fitLoop O Xc cov K p eps dm fuel st = .ok st') :
    ∃ t, st'.E = st.E ++ t := by
  induction fuel generalizing st with
  | zero =>
    rw [fitLoop] at h
    cases h
    exact ⟨[], by simp⟩
  | succ f ih =>
    rw [fitLoop] at h
    split at h
    · cases h
    · next I v heq =>
      split at h
      · cases h
        exact ⟨[evMean v], rfl⟩
      · obtain ⟨t, ht⟩ := ih _ h
        refine ⟨[evMean v] ++ t, ?_⟩
        rw [ht]
        simp

theorem fitLoop_first_step_no_break (O : Oracle) (Xc : Dataset) (cov : List Mat)
    (K p : Int) (eps : EV) (dm : String) (f : Nat) (st : LoopState)
    (hE : lastE st.E = EV.inf) (I : List Nat) (v : List EV)
    (hok : assign_clusters Xc (some st.S) K dm O = .ok (I, v)) :
    fitLoop O Xc cov K p eps dm (f + 1) st =
      fitLoop O Xc cov K p eps dm f
        ⟨groupBy I K.toNat,
         (compute_common_spaces O cov (groupBy I K.toNat) p).1,
         st.E ++ [evMean v],
         some (compute_common_spaces O cov (groupBy I K.toNat) p).2⟩ := by
  rw [fitLoop, hok]
  have hfalse : EV.lt (EV.abssub (lastE st.E) (evMean v)) eps = false := by
    rw [hE]
    exact EV.lt_abssub_inf _ _
  simp [hfalse]

theorem fit_ok_parts (m : Mc2PCA) (O : Oracle) (X : Dataset) (m' : Mc2PCA)
    (out : FitOut) (h : Mc2PCA.fit m O X = .ok (m', out)) :
    ∃ cov idx0 st,
      compute_covariance_matrices (center_data X) = .ok cov ∧
      arraySplit X.length m.K = .ok idx0 ∧
      fitLoop O (center_data X) cov m.K m.p m.epsilon m.distance_metric
        m.max_iter.toNat
        ⟨idx0, (compute_common_spaces O cov idx0 m.p).1, [EV.inf], none⟩ = .ok st ∧
      out.E = st.E := by
  rw [Mc2PCA.fit] at h
  split at h
  · cases h
  · next cov hcov =>
    split at h
    · cases h
    · next idx0 hidx0 =>
      split at h
      · cases h
      · next st hloop =>
        split at h
        · cases h
        · next info hinfo =>
          have h2 := h
          simp only [Except.ok.injEq, Prod.mk.injEq] at h2
          refine ⟨cov, idx0, st, hcov, hidx0, hloop, ?_⟩
          rw [← h2.2]

theorem fitLoop_succ_inv (O : Oracle) (Xc : Dataset) (cov : List Mat) (K p : Int)
    (eps : EV) (dm : String) (fuel : Nat) (st st' : LoopState)
    (h : fitLoop O Xc cov K p eps dm (fuel + 1) st = .ok st') :
    ∃ I v, assign_clusters Xc (some st.S) K dm O = .ok (I, v) ∧
      ((EV.lt (EV.abssub (lastE st.E) (evMean v)) eps = true ∧
          st' = ⟨st.idx, st.S, st.E ++ [evMean v], st.info⟩) ∨
       (EV.lt (EV.abssub (lastE st.E) (evMean v)) eps = false ∧
          fitLoop O Xc cov K p eps dm fuel
            ⟨groupBy I K.toNat,
             (compute_common_spaces O cov (groupBy I K.toNat) p).1,
             st.E ++ [evMean v],
             some (compute_common_spaces O cov (groupBy I K.toNat) p).2⟩ =
            .ok st')) := by
  rw [fitLoop] at h
  split at h
  · cases h
  · next I v heq =>
    refine ⟨I, v, heq, ?_⟩
    split at h
    · next hcond =>
      cases h
      exact Or.inl ⟨hcond, rfl⟩
    · next hcond =>
      exact Or.inr ⟨by simpa using hcond, h⟩

/-- C9.  Because the error trace is seeded with the sentinel plus infinity,
the convergence check can never fire on the first iteration (the absolute
difference against the sentinel is inf, or NaN, and compares below nothing):
whenever max_iter is at least 2, a successful fit with finite epsilon and a
finite first mean error performs at least two assignment iterations, so the
final error trace holds the sentinel plus at least two recorded errors. -/
theorem fit_no_first_iteration_convergence (m : Mc2PCA) (O : Oracle) (X : Dataset)
    (m' : Mc2PCA) (out : FitOut) (q e1 : ℚ)
    (heps : m.epsilon = EV.fin q) (hmi : 2 ≤ m.max_iter)
    (hok : Mc2PCA.fit m O X = .ok (m', out))
    (hE1 : out.E.getD 1 EV.nan = EV.fin e1) :
    3 ≤ out.E.length := by
  obtain ⟨cov, idx0, st, hcov, hidx0, hloop, hE⟩ := fit_ok_parts m O X m' out hok
  obtain ⟨f, hf⟩ : ∃ f, m.max_iter.toNat = f + 1 + 1 :=
    ⟨m.max_iter.toNat - 2, by omega⟩
  rw [hf] at hloop
  obtain ⟨I1, v1, hA1, hc1⟩ := fitLoop_succ_inv _ _ _ _ _ _ _ _ _ _ hloop
  rcases hc1 with ⟨hcond1, _⟩ | ⟨_, hloop2⟩
  · rw [show lastE ([EV.inf]) = EV.inf from rfl] at hcond1
    rw [EV.lt_abssub_inf] at hcond1
    cases hcond1
  · obtain ⟨I2, v2, hA2, hc2⟩ := fitLoop_succ_inv _ _ _ _ _ _ _ _ _ _ hloop2
    rcases hc2 with ⟨_, hst⟩ | ⟨_, hloop3⟩
    · rw [hE, hst]
      simp
    · obtain ⟨t, ht⟩ := fitLoop_E_extends _ _ _ _ _ _ _ _ _ _ hloop3
      rw [hE, ht]
      simp

/-- C2 amended.  With epsilon set to plus infinity the fit loop cannot stop
on the first iteration, because the first convergence test compares
the absolute difference against the inf sentinel (inf, or NaN, is never
strictly below inf).  On the second iteration the difference of two finite
mean errors is finite, and finite is strictly below inf, so the loop stops
there: a successful fit with epsilon = inf, max_iter at least 2 and finite
recorded mean errors performs exactly two assignment steps, leaving an
error trace of length 3. -/
theorem fit_infinite_epsilon_two_iterations (m : Mc2PCA) (O : Oracle) (X : Dataset)
    (m' : Mc2PCA) (out : FitOut) (a b : ℚ)
    (heps : m.epsilon = EV.inf) (hmi : 2 ≤ m.max_iter)
    (hok : Mc2PCA.fit m O X = .ok (m', out))
    (hE1 : out.E.getD 1 EV.nan = EV.fin a)
    (hE2 : out.E.getD 2 EV.nan = EV.fin b) :
    out.E.length = 3 := by
  obtain ⟨cov, idx0, st, hcov, hidx0, hloop, hE⟩ := fit_ok_parts m O X m' out hok
  obtain ⟨f, hf⟩ : ∃ f, m.max_iter.toNat = f + 1 + 1 :=
    ⟨m.max_iter.toNat - 2, by omega⟩
  rw [hf] at hloop
  obtain ⟨I1, v1, hA1, hc1⟩ := fitLoop_succ_inv _ _ _ _ _ _ _ _ _ _ hloop
  rcases hc1 with ⟨hcond1, _⟩ | ⟨_, hloop2⟩
  · rw [show lastE ([EV.inf]) = EV.inf from rfl] at hcond1
    rw [EV.lt_abssub_inf] at hcond1
    cases hcond1
  · obtain ⟨I2, v2, hA2, hc2⟩ := fitLoop_succ_inv _ _ _ _ _ _ _ _ _ _ hloop2
    rcases hc2 with ⟨_, hst⟩ | ⟨hcond2, hloop3⟩
    · rw [hE, hst]
      simp
    · exfalso
      obtain ⟨t, ht⟩ := fitLoop_E_extends _ _ _ _ _ _ _ _ _ _ hloop3
      have h1 : out.E.getD 1 EV.nan = evMean v1 := by
        rw [hE, ht, List.getD_append _ _ _ _ (by simp)]
        rfl
      have h2 : out.E.getD 2 EV.nan = evMean v2 := by
        rw [hE, ht, List.getD_append _ _ _ _ (by simp)]
        rfl
      rw [hE1] at h1
      rw [hE2] at h2
      rw [show lastE (([EV.inf] ++ [evMean v1] : List EV)) = evMean v1 from rfl,
        ← h1, ← h2, heps] at hcond2
      simp [EV.abssub, EV.lt] at hcond2

/-- C3 amended.  The constructor performs no validation whatsoever: any
configuration, valid or not, is stored verbatim and no error is raised at
construction.  An invalid K surfaces only inside fit, at the initial index
split, after the data has already been centred and its covariance matrices
computed — not eagerly before computation starts. -/
theorem init_no_validation_invalid_K_fails_inside_fit (K p : Int) (eps : EV)
    (mi : Int) (dm : String) (O : Oracle) (X : Dataset) (cov : List Mat)
    (hK : K ≤ 0)
    (hcov : compute_covariance_matrices (center_data X) = .ok cov) :
    Mc2PCA.init K p eps mi dm = ⟨K, p, eps, mi, dm, none, none, none, none⟩ ∧
    Mc2PCA.fit (Mc2PCA.init K p eps mi dm) O X =
      .error "ValueError: number sections must be larger than 0." := by
  refine ⟨rfl, ?_⟩
  rw [Mc2PCA.fit]
  simp only [Mc2PCA.init, hcov, arraySplit, if_pos hK]

/-! Lemmas about the per-cluster information list. -/

theorem compute_common_spaces_S_length (O : Oracle) (cov : List Mat)
    (ci : List (List Nat)) (p : Int) :
    (compute_common_spaces O cov ci p).1.length = ci.length := by
  induction ci with
  | nil => rfl
  | cons ind rest ih =>
    rw [compute_common_spaces]
    split <;> simp [ih]

theorem compute_common_spaces_info_length (O : Oracle) (cov : List Mat)
    (ci : List (List Nat)) (p : Int) :
    (compute_common_spaces O cov ci p).2.length =
      (ci.filter fun l => decide (0 < l.length)).length := by
  induction ci with
  | nil => rfl
  | cons ind rest ih =>
    rw [compute_common_spaces]
    by_cases hind : 0 < ind.length
    · rw [if_pos hind]
      simp [List.filter, hind, ih]
    · rw [if_neg hind]
      simp [List.filter, hind, ih]

/-- C7 amended.  compute_common_spaces returns one common space per cluster
but one retained-information fraction per *non-empty* cluster only: the
info list it builds (and that fit hands back) has length equal to the
number of non-empty clusters, so it is aligned with cluster indices
0..K-1 exactly when every cluster is non-empty; each empty cluster shifts
the fractions of all later clusters down by one position. -/
theorem compute_common_spaces_info_per_nonempty (O : Oracle) (cov : List Mat)
    (ci : List (List Nat)) (p : Int) :
    (compute_common_spaces O cov ci p).1.length = ci.length ∧
    (compute_common_spaces O cov ci p).2.length =
      (ci.filter fun l => decide (0 < l.length)).length ∧
    ((∀ l ∈ ci, l ≠ []) →
      (compute_common_spaces O cov ci p).2.length = ci.length) := by
  refine ⟨compute_common_spaces_S_length O cov ci p,
    compute_common_spaces_info_length O cov ci p, ?_⟩
  intro hall
  rw [compute_common_spaces_info_length O cov ci p]
  have hfe : ci.filter (fun l => decide (0 < l.length)) = ci := by
    apply List.filter_eq_self.mpr
    intro l hl
    have := hall l hl
    simp only [decide_eq_true_eq]
    cases l with
    | nil => exact absurd rfl this
    | cons a as => simp
  rw [hfe]

/-! Lemmas about centering. -/

theorem listSum_map_sub (l : List ℚ) (c : ℚ) :
    listSum (l.map fun x => x - c) = listSum l - l.length * c := by
  induction l with
  | nil => simp [listSum]
  | cons x xs ih =>
    simp only [List.map_cons, listSum, List.sum_cons, List.length_cons] at *
    rw [ih]
    push_cast
    ring

/-- C8 amended.  Centering never signals an error: center_data is a total
transformation that preserves the shape of the dataset cell by cell, a
length-0 series maps to the (empty) length-0 series — numpy computes a NaN
mean with only a warning, and subtracting it across zero elements leaves
nothing for the NaN to land in — and for every non-empty series the centred
series sums to zero (its own arithmetic mean was subtracted). -/
theorem center_data_total_shape_and_mean_zero :
    (∀ X : Dataset, (center_data X).length = X.length ∧
      ∀ i j : Nat, ((center_data X).getD i []).getD j [] =
        centerSeries ((X.getD i []).getD j [])) ∧
    centerSeries [] = [] ∧
    (∀ s : Series, s ≠ [] → listSum (centerSeries s) = 0) := by
  refine ⟨?_, rfl, ?_⟩
  · intro X
    refine ⟨by simp [center_data], ?_⟩
    intro i j
    by_cases hi : i < X.length
    · rw [center_data, getD_map_lt _ _ _ _ [] hi]
      by_cases hj : j < (X.getD i []).length
      · rw [getD_map_lt _ _ _ _ [] hj]
      · have h1 : ((X.getD i []).map centerSeries).getD j [] = [] :=
          List.getD_eq_default _ _ (by simp only [List.length_map]; omega)
        have h2 : (X.getD i []).getD j [] = [] :=
          List.getD_eq_default _ _ (by omega)
        rw [h1, h2]
        rfl
    · have h1 : (center_data X).getD i [] = [] :=
        List.getD_eq_default _ _ (by simp only [center_data, List.length_map]; omega)
      have h2 : X.getD i [] = [] := List.getD_eq_default _ _ (by omega)
      rw [h1, h2]
      rfl
  · intro s hs
    rw [centerSeries, listSum_map_sub, listMean]
    have hlen : (s.length : ℚ) ≠ 0 := by
      simpa using fun h => hs (List.length_eq_zero.mp h)
    field_simp

/-- C10.  If fit has never completed, the stored common-spaces list is
still None, and inference raises for every input dataset: a negative K
fails at the Error matrix allocation, K = 0 fails at the argmin — numpy
rejects a length-0 reduction axis no matter how many rows there are, so
even the empty dataset raises — and any positive K fails at once because
the assigner subscripts the None spaces list. -/
theorem inference_unfitted_raises (m : Mc2PCA) (O : Oracle) (X : Dataset)
    (hS : m.S = none) :
    ∃ e, Mc2PCA.inference m O X = .error e := by
  rcases lt_trichotomy m.K 0 with hK | hK | hK
  · refine ⟨"ValueError: negative dimensions are not allowed", ?_⟩
    rw [Mc2PCA.inference, hS]
    rw [show assign_clusters (center_data X) none m.K m.distance_metric O =
      .error "ValueError: negative dimensions are not allowed" by
        rw [assign_clusters, if_pos hK]]
  · have h0 : m.K.toNat = 0 := by omega
    refine ⟨"ValueError: attempt to get argmin of an empty sequence", ?_⟩
    rw [Mc2PCA.inference, hS]
    rw [show assign_clusters (center_data X) none m.K m.distance_metric O =
      .error "ValueError: attempt to get argmin of an empty sequence" by
        rw [assign_clusters, if_neg (by omega), h0]
        simp [errorColumns, mapME]]
  · obtain ⟨t, ht⟩ : ∃ t, m.K.toNat = t + 1 := ⟨m.K.toNat - 1, by omega⟩
    refine ⟨"TypeError: NoneType object is not subscriptable", ?_⟩
    rw [Mc2PCA.inference, hS]
    rw [show assign_clusters (center_data X) none m.K m.distance_metric O =
      .error "TypeError: NoneType object is not subscriptable" by
        rw [assign_clusters, if_neg (by omega), ht]
        simp [errorColumns, List.range_succ_eq_map, mapME]]

/-! Lemmas about CPCA. -/

theorem listSum_map_div (l : List ℚ) (c : ℚ) :
    listSum (l.map (· / c)) = listSum l / c := by
  induction l with
  | nil => simp [listSum]
  | cons x xs ih =>
    simp only [List.map_cons, listSum, List.sum_cons] at *
    rw [ih, add_div]

theorem pyTake_nonneg {α : Type} (l : List α) (p : Int) (hp : 0 ≤ p) :
    pyTake l p = l.take p.toNat := by
  rw [pyTake, if_pos hp]

theorem headD_take {α : Type} (l : List α) (d : α) (n : Nat) (h : 1 ≤ n) :
    (l.take n).headD d = l.headD d := by
  cases l with
  | nil => simp
  | cons x xs =>
    cases n with
    | zero => omega
    | succ k => simp

theorem getD_take_lt {α : Type} (l : List α) (n j : Nat) (d : α) (hj : j < n) :
    (l.take n).getD j d = l.getD j d := by
  by_cases hl : j < l.length
  · rw [List.getD_eq_getElem _ _ (by simp [List.length_take]; omega),
      List.getD_eq_getElem _ _ hl, List.getElem_take]
  · rw [List.getD_eq_default _ _ (by simp [List.length_take]; omega),
      List.getD_eq_default _ _ (by omega)]

theorem colOf_transposeM (M : Mat) (j : Nat) (hj : j < M.length)
    (hrect : (M.getD j []).length = numCols M) :
    colOf (transposeM M) j = M.getD j [] := by
  rw [transposeM, colOf, List.map_map]
  have hcell : ∀ i : Nat, ((colOf M) i).getD j 0 = (M.getD j []).getD i 0 := by
    intro i
    rw [colOf, getD_map_lt _ _ _ _ [] hj]
  have hfun : ((fun r : List ℚ => r.getD j 0) ∘ colOf M) =
      fun i => (M.getD j []).getD i 0 := by
    funext i
    exact hcell i
  rw [hfun, show numCols M = (M.getD j []).length from hrect.symm]
  exact range_map_getD _ 0

/-- C6.  CPCA forms the element-wise mean of the covariance matrices, takes
the singular value decomposition of that mean, squares the singular values
into eigenvalues, and returns the matrix whose p columns are the first p
right singular vectors (an m-by-p matrix, orthonormal columns, ordered by
the descending eigenvalues) together with the retained-information ratio,
the sum of the first p eigenvalues divided by the sum of all of them.
The hypotheses are the contract of the SVD library routine at this input:
right-singular-vector rows of full length, orthonormal, and nonnegative
singular values sorted in descending order. -/
theorem CPCA_mean_svd_top_p (O : Oracle) (Sigma : List Mat) (p : Int)
    (mdim : Nat) (sv : List ℚ) (vt : Mat)
    (hne : Sigma ≠ [])
    (hsvd : O.svd (matMean Sigma) = (sv, vt))
    (hsv : sv.length = mdim) (hvt : vt.length = mdim)
    (hrows : ∀ r ∈ vt, r.length = mdim)
    (hortho : ∀ a, a < mdim → ∀ b, b < mdim →
      dot (vt.getD a []) (vt.getD b []) = if a = b then 1 else 0)
    (hdesc : ∀ a, a < mdim → ∀ b, b < mdim → a ≤ b →
      sv.getD b 0 ≤ sv.getD a 0)
    (hnonneg : ∀ a, a < mdim → 0 ≤ sv.getD a 0)
    (hp : 0 < p) (hpm : p ≤ (mdim : Int)) :
    (CPCA O Sigma p).1.length = mdim ∧
    (∀ r ∈ (CPCA O Sigma p).1, r.length = p.toNat) ∧
    (∀ j, j < p.toNat → colOf (CPCA O Sigma p).1 j = vt.getD j []) ∧
    (∀ a, a < p.toNat → ∀ b, b < p.toNat →
      dot (colOf (CPCA O Sigma p).1 a) (colOf (CPCA O Sigma p).1 b) =
        if a = b then 1 else 0) ∧
    (∀ a, a < mdim → ∀ b, b < mdim → a ≤ b →
      (sv.getD b 0) * (sv.getD b 0) ≤ (sv.getD a 0) * (sv.getD a 0)) ∧
    (CPCA O Sigma p).2 =
      listSum ((sv.take p.toNat).map fun x => x * x) /
        listSum (sv.map fun x => x * x) := by
  have hptn : 1 ≤ p.toNat := by omega
  have hptm : p.toNat ≤ mdim := by omega
  have hmd : 1 ≤ mdim := by omega
  have hCP1 : (CPCA O Sigma p).1 = transposeM (vt.take p.toNat) := by
    rw [CPCA]
    simp only [hsvd]
    rw [pyTake_nonneg _ _ (by omega)]
  have hCP2 : (CPCA O Sigma p).2 =
      listSum (((sv.map fun x => x * x).take p.toNat).map
        (· / listSum (sv.map fun x => x * x))) := by
    rw [CPCA]
    simp only [hsvd]
    rw [pyTake_nonneg _ _ (by omega)]
  have hnc : numCols (vt.take p.toNat) = mdim := by
    rw [numCols, headD_take _ _ _ hptn]
    cases vt with
    | nil => simp at hvt; omega
    | cons v0 rest => simpa using hrows v0 (by simp)
  have htklen : (vt.take p.toNat).length = p.toNat := by
    simp [List.length_take]
    omega
  have hcol : ∀ j, j < p.toNat → colOf (CPCA O Sigma p).1 j = vt.getD j [] := by
    intro j hj
    rw [hCP1]
    rw [colOf_transposeM (vt.take p.toNat) j (by omega)]
    · exact getD_take_lt vt p.toNat j [] hj
    · rw [getD_take_lt vt p.toNat j [] hj, hnc]
      exact hrows _ (getD_mem_of_lt vt j [] (by omega))
  refine ⟨?_, ?_, hcol, ?_, ?_, ?_⟩
  · rw [hCP1, transposeM]
    simp [hnc]
  · intro r hr
    rw [hCP1, transposeM] at hr
    simp only [List.mem_map, List.mem_range] at hr
    obtain ⟨j, hj, rfl⟩ := hr
    rw [colOf]
    simp only [List.length_map]
    exact htklen
  · intro a ha b hb
    rw [hcol a ha, hcol b hb]
    exact hortho a (by omega) b (by omega)
  · intro a ha b hb hab
    exact mul_self_le_mul_self (hnonneg b hb) (hdesc a ha b hb hab)
  · rw [hCP2, ← List.map_take, listSum_map_div]

/-! Closed instances: counterexamples and witnesses. -/

/-- C1 witness: a concrete converging step.  With the error trace already at
[inf, 1] and both cluster spaces equal, the new assignment has mean error 1,
the difference 0 is below epsilon, and the loop returns the prior index sets
[[0], [1]] and spaces unchanged, with only the error trace extended. -/
theorem fitLoop_convergence_discards_new_assignment_witness :
    fitLoop O0 (center_data X0) [] 2 1 (EV.fin (1 / 10000000)) "l1" 1
        ⟨[[0], [1]], [some [[1], [0]], some [[1], [0]]], [EV.inf, EV.fin 1],
         some [1, 1]⟩ =
      .ok ⟨[[0], [1]], [some [[1], [0]], some [[1], [0]]],
           [EV.inf, EV.fin 1, EV.fin 1], some [1, 1]⟩ :=
  fitLoop_convergence_discards_new_assignment O0 (center_data X0) [] 2 1
    (EV.fin (1 / 10000000)) "l1" 0
    ⟨[[0], [1]], [some [[1], [0]], some [[1], [0]]], [EV.inf, EV.fin 1],
     some [1, 1]⟩
    [0, 0] [EV.fin 1, EV.fin 1] (by decide) (by decide)

/-- C2 counterexample: with epsilon = plus infinity, fit on a concrete
two-sample dataset performs two assignment steps (the error trace ends with
the sentinel plus two recorded errors, length 3), not the single one the
claim asserts (which would leave a trace of length 2). -/
theorem fit_infinite_epsilon_not_one_iteration :
    (Mc2PCA.fit (Mc2PCA.init 2 1 EV.inf 100 "l1") O0 X0).map
        (fun r => r.2.E.length) = .ok 3 ∧ (3 : Nat) ≠ 2 :=
  ⟨by decide, by decide⟩

/-- C2 witness for the amended claim, on the same concrete run. -/
theorem fit_infinite_epsilon_two_iterations_witness :
    ([EV.inf, EV.fin 1, EV.fin 1] : List EV).length = 3 :=
  fit_infinite_epsilon_two_iterations (Mc2PCA.init 2 1 EV.inf 100 "l1") O0 X0
    ⟨2, 1, EV.inf, 100, "l1", some [some [[1], [0]], none], some [[0, 1], []],
     some [EV.inf, EV.fin 1, EV.fin 1], some [1]⟩
    ⟨[[0, 1], []], [EV.inf, EV.fin 1, EV.fin 1], [1]⟩
    1 1 rfl (by decide) (by decide) rfl rfl

/-- C3 counterexample: constructing the model with K = 0, p = 0,
max_iter = 0 and an unknown distance-metric string raises nothing at all:
the constructor returns an ordinary instance storing the invalid
configuration verbatim, instead of the eager configuration error the claim
asserts. -/
theorem init_invalid_config_constructs :
    Mc2PCA.init 0 0 (EV.fin (1 / 10000000)) 0 "bogus" =
      ⟨0, 0, EV.fin (1 / 10000000), 0, "bogus", none, none, none, none⟩ := rfl

/-- C3 witness for the amended claim: K = 0 is stored silently and the
ValueError surfaces only inside fit, after centering and covariance
computation succeeded on the data. -/
theorem init_no_validation_invalid_K_fails_inside_fit_witness :
    Mc2PCA.init 0 1 (EV.fin (1 / 10000000)) 100 "l1" =
      ⟨0, 1, EV.fin (1 / 10000000), 100, "l1", none, none, none, none⟩ ∧
    Mc2PCA.fit (Mc2PCA.init 0 1 (EV.fin (1 / 10000000)) 100 "l1") O0 X0 =
      .error "ValueError: number sections must be larger than 0." :=
  init_no_validation_invalid_K_fails_inside_fit 0 1 (EV.fin (1 / 10000000)) 100
    "l1" O0 X0 [[[1, 1], [1, 1]], [[1, 1], [1, 1]]] (by decide) (by decide)

/-- C4 witness: a concrete assignment of two samples to two clusters is a
partition of the index range. -/
theorem assign_clusters_partition_witness :
    (∀ k1, k1 < (2 : Int).toNat → ∀ k2, k2 < (2 : Int).toNat → ∀ i,
      i ∈ (groupBy [0, 0] (2 : Int).toNat).getD k1 [] →
      i ∈ (groupBy [0, 0] (2 : Int).toNat).getD k2 [] → k1 = k2) ∧
    (∀ i, i < (center_data X0).length ↔
      ∃ k, k < (2 : Int).toNat ∧ i ∈ (groupBy [0, 0] (2 : Int).toNat).getD k []) :=
  assign_clusters_partition (center_data X0)
    [some [[1], [0]], some [[1], [0]]] 2 "l1" O0 [0, 0] [EV.fin 1, EV.fin 1]
    (by decide) (by decide)

/-- C5 witness: with cluster 1 empty (null space), its concrete error
column is all-inf and neither sample is assigned to it. -/
theorem assign_null_space_never_selected_witness :
    (∀ i, i < (center_data X0).length →
      (([[EV.fin 1, EV.fin 1], [EV.inf, EV.inf]] : List (List EV)).getD 1
        []).getD i EV.nan = EV.inf) ∧
    ((∃ k' s, k' < (2 : Int).toNat ∧
        ([some [[1], [0]], none] : List (Option Mat)).get? k' = some (some s)) →
      ∀ i, i < (center_data X0).length → ([0, 0] : List Nat).getD i 0 ≠ 1) :=
  assign_null_space_never_selected (center_data X0) [some [[1], [0]], none] 2
    "l1" O0 [0, 0] [EV.fin 1, EV.fin 1]
    [[EV.fin 1, EV.fin 1], [EV.inf, EV.inf]] 1
    (by decide) (by decide) (by decide) (by decide) rfl

/-- C6 witness: a concrete CPCA call on one 2-by-2 covariance matrix with
p = 1, under an oracle whose SVD of that mean matrix has singular values
(2, 0) and identity right singular vectors. -/
theorem CPCA_mean_svd_top_p_witness :
    (CPCA O0 [[[1, 0], [0, 1]]] 1).1.length = 2 ∧
    (∀ r ∈ (CPCA O0 [[[1, 0], [0, 1]]] 1).1, r.length = (1 : Int).toNat) ∧
    (∀ j, j < (1 : Int).toNat →
      colOf (CPCA O0 [[[1, 0], [0, 1]]] 1).1 j =
        ([[1, 0], [0, 1]] : Mat).getD j []) ∧
    (∀ a, a < (1 : Int).toNat → ∀ b, b < (1 : Int).toNat →
      dot (colOf (CPCA O0 [[[1, 0], [0, 1]]] 1).1 a)
        (colOf (CPCA O0 [[[1, 0], [0, 1]]] 1).1 b) = if a = b then 1 else 0) ∧
    (∀ a, a < 2 → ∀ b, b < 2 → a ≤ b →
      (([2, 0] : List ℚ).getD b 0) * (([2, 0] : List ℚ).getD b 0) ≤
        (([2, 0] : List ℚ).getD a 0) * (([2, 0] : List ℚ).getD a 0)) ∧
    (CPCA O0 [[[1, 0], [0, 1]]] 1).2 =
      listSum ((([2, 0] : List ℚ).take (1 : Int).toNat).map fun x => x * x) /
        listSum (([2, 0] : List ℚ).map fun x => x * x) :=
  CPCA_mean_svd_top_p O0 [[[1, 0], [0, 1]]] 1 2 [2, 0] [[1, 0], [0, 1]]
    (by decide) rfl rfl rfl (by decide) (by decide) (by decide) (by decide)
    (by decide) (by decide)

/-- C7 counterexample: a concrete fit with K = 2 in which one cluster ends
up empty returns a retained-information list of length 1, not one fraction
per cluster aligned with 0..K-1. -/
theorem fit_info_by_cluster_misaligned :
    (Mc2PCA.fit (Mc2PCA.init 2 1 (EV.fin (1 / 10000000)) 100 "l1") O0 X0).map
        (fun r => r.2.info.length) = .ok 1 ∧ (1 : Nat) ≠ 2 :=
  ⟨by decide, by decide⟩

/-- C7 witness for the amended claim: with both clusters non-empty the info
list does align, one fraction per cluster. -/
theorem compute_common_spaces_info_per_nonempty_witness :
    (compute_common_spaces O0 [[[1, 1], [1, 1]], [[1, 1], [1, 1]]]
      [[0], [1]] 1).2.length = ([[0], [1]] : List (List Nat)).length :=
  (compute_common_spaces_info_per_nonempty O0 [[[1, 1], [1, 1]], [[1, 1], [1, 1]]]
    [[0], [1]] 1).2.2 (by decide)

/-- C8 counterexample: centering a dataset whose only cell is a length-0
series raises nothing and silently returns the same-shaped dataset, against
the claim that an error is signalled. -/
theorem center_data_empty_series_no_error :
    center_data [[[]]] = [[[]]] := rfl

/-- C8 witness for the amended claim: a concrete non-empty series sums to
zero after centering. -/
theorem center_data_total_shape_and_mean_zero_witness :
    listSum (centerSeries [0, 2]) = 0 :=
  center_data_total_shape_and_mean_zero.2.2 [0, 2] (by decide)

/-- C9 witness: a concrete fit with the default epsilon performs two
assignment iterations, leaving an error trace of length 3. -/
theorem fit_no_first_iteration_convergence_witness :
    3 ≤ ([EV.inf, EV.fin 1, EV.fin 1] : List EV).length :=
  fit_no_first_iteration_convergence
    (Mc2PCA.init 2 1 (EV.fin (1 / 10000000)) 100 "l1") O0 X0
    ⟨2, 1, EV.fin (1 / 10000000), 100, "l1", some [some [[1], [0]], none],
     some [[0, 1], []], some [EV.inf, EV.fin 1, EV.fin 1], some [1]⟩
    ⟨[[0, 1], []], [EV.inf, EV.fin 1, EV.fin 1], [1]⟩
    (1 / 10000000) 1 rfl (by decide) (by decide) rfl

/-- C10 witness: an unfitted model with K = 1 makes inference raise even
on the empty dataset, because the assigner subscripts the None spaces
list before looking at any sample. -/
theorem inference_unfitted_raises_witness :
    ∃ e, Mc2PCA.inference (Mc2PCA.init 1 1 (EV.fin (1 / 10000000)) 100
      "euclidean") O0 [] = .error e :=
  inference_unfitted_raises
    (Mc2PCA.init 1 1 (EV.fin (1 / 10000000)) 100 "euclidean") O0 [] rfl
